import Mathlib

/-!
Verification of the asynchronous-operation poller and related CRUD logic of
the terraform-provider-azurerm repository, as a shallow embedding in Lean.

The central piece is the virtual network peering create wait loop
(`internal/services/network/virtual_network_peering_resource.go`):
a `StateChangeConf` whose refresh function
(`virtualNetworkPeeringCreateFunc`) classifies each CreateOrUpdate attempt
into the states "Pending", "Succeeded", "Failed" or "Failure", and a wait
loop that retries "Pending" until "Succeeded", a fatal state, or the
caller-supplied deadline.

Functions of the repository that are not part of the provided source
listing (the generic wait loop of the plugin SDK, `ResponseErrorIsRetryable`,
the generic resource-id parser, the resource-manager poller) are modelled
from the specification and say so in their doc comments.
-/

/-- An error observed when a remote request fails: either a transport-level
failure (no HTTP response), or an HTTP response carrying a status code, with
the error's message text. This models the Go error value handed to the
refresh classification together with `future.Response()`. -/
structure RespError where
  isTransport : Bool
  hasResponse : Bool
  statusCode : Nat
  message : String
  deriving DecidableEq, Repr

/-- `leadsWith n h` is true when the character list `n` is an initial run of
`h`; helper for substring search (models Go `strings.Contains`). -/
def leadsWith : List Char → List Char → Bool
  | [], _ => true
  | _ :: _, [] => false
  | a :: as, b :: bs => a == b && leadsWith as bs

/-- `hasSubList n h` is true when `n` occurs contiguously inside `h`. -/
def hasSubList (needle : List Char) : List Char → Bool
  | [] => leadsWith needle []
  | c :: cs => leadsWith needle (c :: cs) || hasSubList needle cs

/-- Models Go `strings.Contains hay needle`. -/
def strContains (hay needle : String) : Bool :=
  hasSubList needle.data hay.data

/-- Modelled from the spec: `utils.ResponseErrorIsRetryable` is not among the
provided source files; the spec classifies transport errors and 5xx
responses as retryable ("Transport/5xx error → count as retryable"). -/
def ResponseErrorIsRetryable (e : RespError) : Bool :=
  e.isTransport || (500 ≤ e.statusCode && e.statusCode ≤ 599)

/-- Outcome of one CreateOrUpdate attempt inside the refresh function: the
submit call may fail (`submitErr`), the wait on the returned future may fail
(`completionErr`), or both succeed (`ok`). -/
inductive CreateOrUpdateResult where
  | ok : CreateOrUpdateResult
  | submitErr (e : RespError) : CreateOrUpdateResult
  | completionErr (e : RespError) : CreateOrUpdateResult
  deriving DecidableEq, Repr

/-- The state string produced by the refresh function
`virtualNetworkPeeringCreateFunc` of
`internal/services/network/virtual_network_peering_resource.go`:
a retryable submit error maps to "Pending"; a 400 response whose message
contains "ReferencedResourceNotProvisioned" also maps to "Pending"; every
other submit error maps to "Failed"; a completion error maps to "Failure";
success maps to "Succeeded". -/
def virtualNetworkPeeringCreateFunc (r : CreateOrUpdateResult) : String :=
  match r with
  | .submitErr e =>
    if ResponseErrorIsRetryable e then "Pending"
    else if e.hasResponse && e.statusCode == 400 &&
        strContains e.message "ReferencedResourceNotProvisioned" then "Pending"
    else "Failed"
  | .completionErr _ => "Failure"
  | .ok => "Succeeded"

example : virtualNetworkPeeringCreateFunc .ok = "Succeeded" := by decide

example : virtualNetworkPeeringCreateFunc
    (.submitErr ⟨true, false, 0, ""⟩) = "Pending" := by decide

example : virtualNetworkPeeringCreateFunc
    (.submitErr ⟨false, true, 503, "x"⟩) = "Pending" := by decide

example : virtualNetworkPeeringCreateFunc
    (.submitErr ⟨false, true, 403, "denied"⟩) = "Failed" := by decide

example : virtualNetworkPeeringCreateFunc
    (.submitErr ⟨false, true, 400, "ReferencedResourceNotProvisioned"⟩) =
    "Pending" := by decide

/-- How the wait loop ended: the target state was reached (`success`), a
state outside Pending/Target was observed (`fatal`), the deadline passed
(`timeout`), or the step budget of the model ran out (`outOfFuel`; the
theorems always supply enough fuel, and conclude a value distinct from
`outOfFuel`). -/
inductive WaitOutcome where
  | success : WaitOutcome
  | fatal : WaitOutcome
  | timeout : WaitOutcome
  | outOfFuel : WaitOutcome
  deriving DecidableEq, Repr

/-- Modelled from the spec: the generic `StateChangeConf.WaitForStateContext`
loop of the plugin SDK is not among the provided source files. The spec's
algorithm, specialized to the configuration built in
`resourceVirtualNetworkPeeringCreate` (Pending = ["Pending"],
Target = ["Succeeded"], MinTimeout = `minT`, Timeout = deadline `D`):
before each sleep check the deadline and exit with a timeout error if it has
passed; otherwise sleep `minT`, issue the next request (the `i`-th entry of
`trace`), classify it through the refresh function, and either finish on
"Succeeded", continue on "Pending", or abort fatally on any other state.
Returns the outcome together with the times at which requests were issued
(`acc` accumulates them in reverse). -/
def waitForStateAux (trace : Nat → CreateOrUpdateResult) (minT D : Nat) :
    Nat → Nat → Nat → List Nat → WaitOutcome × List Nat
  | 0, _, _, acc => (.outOfFuel, acc.reverse)
  | fuel + 1, i, now, acc =>
    if D ≤ now then (.timeout, acc.reverse)
    else if virtualNetworkPeeringCreateFunc (trace i) = "Succeeded" then
      (.success, ((now + minT) :: acc).reverse)
    else if virtualNetworkPeeringCreateFunc (trace i) = "Pending" then
      waitForStateAux trace minT D fuel (i + 1) (now + minT) ((now + minT) :: acc)
    else (.fatal, ((now + minT) :: acc).reverse)

/-- The wait loop as configured by `resourceVirtualNetworkPeeringCreate`,
started at time 0 with no requests issued yet. -/
def waitForState (trace : Nat → CreateOrUpdateResult) (minT D fuel : Nat) :
    WaitOutcome × List Nat :=
  waitForStateAux trace minT D fuel 0 0 []

example :
    waitForState (fun i => if i < 2 then .submitErr ⟨true, false, 0, ""⟩ else .ok)
      15 300 25 = (.success, [15, 30, 45]) := by decide

example :
    waitForState (fun _ => .submitErr ⟨true, false, 0, ""⟩) 15 40 25 =
      (.timeout, [15, 30, 45]) := by decide

example :
    waitForState (fun _ => .submitErr ⟨false, true, 403, "x"⟩) 15 300 25 =
      (.fatal, [15]) := by decide

/-- A non-transport error with a sub-500 status code is not retryable. -/
theorem retryable_eq_false (e : RespError) (htr : e.isTransport = false)
    (h5 : e.statusCode < 500) : ResponseErrorIsRetryable e = false := by
  unfold ResponseErrorIsRetryable
  rw [htr]
  simp only [Bool.false_or, Bool.and_eq_false_iff, decide_eq_false_iff_not]
  omega

/-- C1, counterexample: the claim says the refresh classification never maps
a 4xx response to the retryable Pending state, but the 400 response whose
message contains "ReferencedResourceNotProvisioned" — a 4xx response that is
not transient under the spec's own retryable classification — is mapped to
"Pending" by `virtualNetworkPeeringCreateFunc`. -/
theorem virtualNetworkPeeringCreateFunc_maps_400_to_pending :
    ResponseErrorIsRetryable
        ⟨false, true, 400, "Error: ReferencedResourceNotProvisioned"⟩ = false ∧
    400 < 500 ∧
    virtualNetworkPeeringCreateFunc
        (.submitErr ⟨false, true, 400, "Error: ReferencedResourceNotProvisioned"⟩) =
      "Pending" := by decide

/-- C1, amended: a 4xx submit error is classified "Failed" — on which the
wait loop aborts at once, issuing no further request — unless it is a 400
response whose message contains "ReferencedResourceNotProvisioned", which is
classified as the retryable "Pending" instead. -/
theorem virtualNetworkPeeringCreateFunc_4xx_fatal (e : RespError)
    (hresp : e.hasResponse = true) (htr : e.isTransport = false)
    (h4 : 400 ≤ e.statusCode) (h5 : e.statusCode < 500) :
    virtualNetworkPeeringCreateFunc (.submitErr e) =
      (if e.statusCode == 400 &&
          strContains e.message "ReferencedResourceNotProvisioned"
        then "Pending" else "Failed") ∧
    ((e.statusCode == 400 &&
        strContains e.message "ReferencedResourceNotProvisioned") = false →
      ∀ (t : Nat → CreateOrUpdateResult) (minT D fuel i now : Nat)
        (acc : List Nat), now < D → t i = .submitErr e →
        waitForStateAux t minT D (fuel + 1) i now acc =
          (.fatal, (((now + minT) :: acc).reverse))) := by
  have hcls : virtualNetworkPeeringCreateFunc (.submitErr e) =
      (if e.statusCode == 400 &&
          strContains e.message "ReferencedResourceNotProvisioned"
        then "Pending" else "Failed") := by
    show (if ResponseErrorIsRetryable e then "Pending"
      else if e.hasResponse && e.statusCode == 400 &&
          strContains e.message "ReferencedResourceNotProvisioned" then "Pending"
      else "Failed") = _
    rw [retryable_eq_false e htr h5]
    simp [hresp]
  refine ⟨hcls, ?_⟩
  intro hnp t minT D fuel i now acc hnow ht
  have hfail : virtualNetworkPeeringCreateFunc (t i) = "Failed" := by
    rw [ht, hcls, hnp]
    simp
  unfold waitForStateAux
  rw [if_neg (Nat.not_le.mpr hnow), hfail]
  simp

/-- Witness for the amended C1 at a concrete 403 response: the refresh
classifies it "Failed" and the loop aborts after that single request. -/
theorem virtualNetworkPeeringCreateFunc_4xx_fatal_witness :
    waitForStateAux (fun _ => .submitErr ⟨false, true, 403, "denied"⟩)
      15 300 10 0 0 [] = (.fatal, [15]) := by
  have h := virtualNetworkPeeringCreateFunc_4xx_fatal
    ⟨false, true, 403, "denied"⟩ rfl rfl (by decide) (by decide)
  have h2 := h.2 (by decide) (fun _ => .submitErr ⟨false, true, 403, "denied"⟩)
    15 300 9 0 0 [] (by decide) rfl
  simpa using h2

/-- When the wait loop ends in success or fatal, at least one request beyond
those already accumulated was issued. -/
theorem waitForStateAux_terminal_length (t : Nat → CreateOrUpdateResult)
    (minT D : Nat) :
    ∀ (fuel i now : Nat) (acc : List Nat) (o : WaitOutcome) (times : List Nat),
      waitForStateAux t minT D fuel i now acc = (o, times) →
      (o = WaitOutcome.success ∨ o = WaitOutcome.fatal) →
      acc.length < times.length := by
  intro fuel
  induction fuel with
  | zero =>
    intro i now acc o times hrun hterm
    simp only [waitForStateAux] at hrun
    cases hrun
    rcases hterm with h | h <;> simp at h
  | succ f ih =>
    intro i now acc o times hrun hterm
    simp only [waitForStateAux] at hrun
    by_cases hD : D ≤ now
    · rw [if_pos hD] at hrun
      cases hrun
      rcases hterm with h | h <;> simp at h
    · rw [if_neg hD] at hrun
      by_cases hS : virtualNetworkPeeringCreateFunc (t i) = "Succeeded"
      · rw [if_pos hS] at hrun
        cases hrun
        simp
      · rw [if_neg hS] at hrun
        by_cases hP : virtualNetworkPeeringCreateFunc (t i) = "Pending"
        · rw [if_pos hP] at hrun
          have hlen := ih (i + 1) (now + minT) ((now + minT) :: acc) o times
            hrun hterm
          simp only [List.length_cons] at hlen
          omega
        · rw [if_neg hP] at hrun
          cases hrun
          simp

/-- Responses at indices the loop never reaches do not affect its result:
if the run of trace `t` ends in success or fatal having issued
`times.length` requests, any trace agreeing with `t` on the consulted
indices produces the identical run. -/
theorem waitForStateAux_agree (minT D : Nat) :
    ∀ (fuel i now : Nat) (acc : List Nat) (o : WaitOutcome) (times : List Nat)
      (t t' : Nat → CreateOrUpdateResult),
      waitForStateAux t minT D fuel i now acc = (o, times) →
      (o = WaitOutcome.success ∨ o = WaitOutcome.fatal) →
      (∀ j, i ≤ j → j < i + (times.length - acc.length) → t' j = t j) →
      waitForStateAux t' minT D fuel i now acc = (o, times) := by
  intro fuel
  induction fuel with
  | zero =>
    intro i now acc o times t t' hrun _ _
    simpa only [waitForStateAux] using hrun
  | succ f ih =>
    intro i now acc o times t t' hrun hterm hagree
    have hlen := waitForStateAux_terminal_length t minT D (f + 1) i now acc
      o times hrun hterm
    have hti : t' i = t i := hagree i le_rfl (by omega)
    simp only [waitForStateAux] at hrun ⊢
    by_cases hD : D ≤ now
    · rw [if_pos hD] at hrun ⊢
      exact hrun
    · rw [if_neg hD] at hrun ⊢
      rw [hti]
      by_cases hS : virtualNetworkPeeringCreateFunc (t i) = "Succeeded"
      · rw [if_pos hS] at hrun ⊢
        exact hrun
      · rw [if_neg hS] at hrun ⊢
        by_cases hP : virtualNetworkPeeringCreateFunc (t i) = "Pending"
        · rw [if_pos hP] at hrun ⊢
          have hlen2 := waitForStateAux_terminal_length t minT D f (i + 1)
            (now + minT) ((now + minT) :: acc) o times hrun hterm
          simp only [List.length_cons] at hlen2
          apply ih (i + 1) (now + minT) ((now + minT) :: acc) o times t t'
            hrun hterm
          intro j hj1 hj2
          simp only [List.length_cons] at hj2
          exact hagree j (by omega) (by omega)
        · rw [if_neg hP] at hrun ⊢
          exact hrun

/-- Every response the loop consulted before the terminal one classified to
"Pending": the loop stays in the Pending state until the single terminal
transition. -/
theorem waitForStateAux_pending_before_terminal
    (t : Nat → CreateOrUpdateResult) (minT D : Nat) :
    ∀ (fuel i now : Nat) (acc : List Nat) (o : WaitOutcome) (times : List Nat),
      waitForStateAux t minT D fuel i now acc = (o, times) →
      (o = WaitOutcome.success ∨ o = WaitOutcome.fatal) →
      ∀ j, i ≤ j → j + 1 < i + (times.length - acc.length) →
        virtualNetworkPeeringCreateFunc (t j) = "Pending" := by
  intro fuel
  induction fuel with
  | zero =>
    intro i now acc o times hrun hterm
    simp only [waitForStateAux] at hrun
    cases hrun
    rcases hterm with h | h <;> simp at h
  | succ f ih =>
    intro i now acc o times hrun hterm j hij hj
    simp only [waitForStateAux] at hrun
    by_cases hD : D ≤ now
    · rw [if_pos hD] at hrun
      cases hrun
      rcases hterm with h | h <;> simp at h
    · rw [if_neg hD] at hrun
      by_cases hS : virtualNetworkPeeringCreateFunc (t i) = "Succeeded"
      · rw [if_pos hS] at hrun
        cases hrun
        simp only [List.length_reverse, List.length_cons] at hj
        omega
      · rw [if_neg hS] at hrun
        by_cases hP : virtualNetworkPeeringCreateFunc (t i) = "Pending"
        · rw [if_pos hP] at hrun
          rcases Nat.eq_or_lt_of_le hij with heq | hlt
          · rw [heq] at hP
            exact hP
          · have hlen2 := waitForStateAux_terminal_length t minT D f (i + 1)
              (now + minT) ((now + minT) :: acc) o times hrun hterm
            simp only [List.length_cons] at hlen2
            apply ih (i + 1) (now + minT) ((now + minT) :: acc) o times
              hrun hterm j (by omega)
            simp only [List.length_cons]
            omega
        · rw [if_neg hP] at hrun
          cases hrun
          simp only [List.length_reverse, List.length_cons] at hj
          omega

/-- C2: the wait loop realizes a step relation over
{Pending, Succeeded, Failed} with initial state Pending in which the
terminal states absorb: a run of trace `t` that reaches success or fatal
after `times.length` requests stays in Pending through every earlier
response, and no further status request is issued afterwards — any trace
agreeing with `t` on the consulted indices yields the identical run. -/
theorem waitForState_terminal_absorbing
    (t t' : Nat → CreateOrUpdateResult) (minT D fuel : Nat)
    (o : WaitOutcome) (times : List Nat)
    (hrun : waitForState t minT D fuel = (o, times))
    (hterm : o = WaitOutcome.success ∨ o = WaitOutcome.fatal)
    (hagree : ∀ j, j < times.length → t' j = t j) :
    waitForState t' minT D fuel = (o, times) ∧
      ∀ j, j + 1 < times.length →
        virtualNetworkPeeringCreateFunc (t j) = "Pending" := by
  constructor
  · exact waitForStateAux_agree minT D fuel 0 0 [] o times t t' hrun hterm
      (fun j _ h2 => hagree j (by simpa using h2))
  · intro j hj
    exact waitForStateAux_pending_before_terminal t minT D fuel 0 0 [] o
      times hrun hterm j (Nat.zero_le j) (by simpa using hj)

/-- Witness for C2: a run succeeding at the third request is unchanged by
arbitrary alteration of the trace beyond the three consulted entries. -/
theorem waitForState_terminal_absorbing_witness :
    waitForState
      (fun i => if i < 2 then .submitErr ⟨true, false, 0, ""⟩
        else if i = 2 then .ok else .submitErr ⟨false, true, 403, "x"⟩)
      15 300 25 = (WaitOutcome.success, [15, 30, 45]) :=
  (waitForState_terminal_absorbing
    (fun i => if i < 2 then .submitErr ⟨true, false, 0, ""⟩ else .ok)
    (fun i => if i < 2 then .submitErr ⟨true, false, 0, ""⟩
      else if i = 2 then .ok else .submitErr ⟨false, true, 403, "x"⟩)
    15 300 25 WaitOutcome.success [15, 30, 45] (by decide) (Or.inl rfl)
    (by intro j hj; simp only [List.length_cons, List.length_nil] at hj; interval_cases j <;> rfl)).1

/-- A retryable submit error is classified as the Pending state. -/
theorem classify_retryable_pending (e : RespError)
    (h : ResponseErrorIsRetryable e = true) :
    virtualNetworkPeeringCreateFunc (.submitErr e) = "Pending" := by
  show (if ResponseErrorIsRetryable e then "Pending"
    else if e.hasResponse && e.statusCode == 400 &&
        strContains e.message "ReferencedResourceNotProvisioned" then "Pending"
    else "Failed") = "Pending"
  rw [if_pos h]

/-- When every response classifies to "Pending", the loop exits through the
deadline: the outcome is timeout, every request is issued before
`D + minT`, and at most one request is issued after `D` itself. -/
theorem waitForStateAux_timeout (t : Nat → CreateOrUpdateResult)
    (minT D : Nat) (hmin : 1 ≤ minT)
    (hpend : ∀ j, virtualNetworkPeeringCreateFunc (t j) = "Pending") :
    ∀ (fuel i now : Nat) (acc : List Nat), D - now < fuel →
      (∀ x ∈ acc, x < D + minT) →
      (now ≤ D → acc.countP (fun x => decide (D < x)) = 0) →
      acc.countP (fun x => decide (D < x)) ≤ 1 →
      (waitForStateAux t minT D fuel i now acc).1 = WaitOutcome.timeout ∧
      (∀ x ∈ (waitForStateAux t minT D fuel i now acc).2, x < D + minT) ∧
      (waitForStateAux t minT D fuel i now acc).2.countP
        (fun x => decide (D < x)) ≤ 1 := by
  intro fuel
  induction fuel with
  | zero =>
    intro i now acc hfuel _ _ _
    omega
  | succ f ih =>
    intro i now acc hfuel hmem hcount0 hcount1
    simp only [waitForStateAux]
    by_cases hD : D ≤ now
    · rw [if_pos hD]
      refine ⟨rfl, ?_, ?_⟩
      · intro x hx
        exact hmem x (List.mem_reverse.mp hx)
      · rw [List.countP_reverse]
        exact hcount1
    · rw [if_neg hD]
      have hS : ¬ virtualNetworkPeeringCreateFunc (t i) = "Succeeded" := by
        rw [hpend i]
        decide
      rw [if_neg hS, if_pos (hpend i)]
      have hnowD : now < D := by omega
      apply ih (i + 1) (now + minT) ((now + minT) :: acc) (by omega)
      · intro x hx
        rcases List.mem_cons.mp hx with h | h
        · omega
        · exact hmem x h
      · intro hle
        rw [List.countP_cons, hcount0 (by omega)]
        have hd : (decide (D < now + minT)) = false := by
          simp only [decide_eq_false_iff_not]
          omega
        rw [hd]
        simp
      · rw [List.countP_cons, hcount0 (by omega)]
        split <;> simp

/-- C3: when no response ever reaches a terminal classification (every
refresh yields "Pending"), the wait loop started with deadline `D` returns
the timeout outcome — a value distinct from the fatal outcome of a remote
failure — and every status request is issued strictly before `D + minT`,
with at most one request issued after `D` itself (the single iteration whose
sleep straddles the deadline). -/
theorem waitForState_deadline_exceeded (t : Nat → CreateOrUpdateResult)
    (minT D fuel : Nat) (hmin : 1 ≤ minT) (hfuel : D < fuel)
    (hpend : ∀ j, virtualNetworkPeeringCreateFunc (t j) = "Pending") :
    (waitForState t minT D fuel).1 = WaitOutcome.timeout ∧
    WaitOutcome.timeout ≠ WaitOutcome.fatal ∧
    (∀ x ∈ (waitForState t minT D fuel).2, x < D + minT) ∧
    (waitForState t minT D fuel).2.countP (fun x => decide (D < x)) ≤ 1 := by
  have h := waitForStateAux_timeout t minT D hmin hpend fuel 0 0 []
    (by omega) (by simp) (by simp) (by simp)
  exact ⟨h.1, by decide, h.2.1, h.2.2⟩

/-- Witness for C3 at a concrete always-transient trace: deadline 40,
minimum interval 15, requests at 15, 30, 45 — only the last one past the
deadline — and a timeout outcome. -/
theorem waitForState_deadline_exceeded_witness :
    (waitForState (fun _ => .submitErr ⟨true, false, 0, ""⟩) 15 40 41).1 =
      WaitOutcome.timeout ∧
    WaitOutcome.timeout ≠ WaitOutcome.fatal ∧
    (∀ x ∈ (waitForState (fun _ => .submitErr ⟨true, false, 0, ""⟩)
      15 40 41).2, x < 40 + 15) ∧
    (waitForState (fun _ => .submitErr ⟨true, false, 0, ""⟩)
      15 40 41).2.countP (fun x => decide (40 < x)) ≤ 1 :=
  waitForState_deadline_exceeded _ 15 40 41 (by decide) (by decide)
    (fun _ => by decide)

/-- After any number of retryable submit errors followed by a success, the
loop returns success, having issued exactly one request per response. -/
theorem waitForStateAux_transient_success (t : Nat → CreateOrUpdateResult)
    (minT D : Nat) :
    ∀ (k fuel i now : Nat) (acc : List Nat),
      (∀ j, j < k → ∃ e, t (i + j) = .submitErr e ∧
        ResponseErrorIsRetryable e = true) →
      t (i + k) = .ok →
      now + minT * k < D → k < fuel →
      (waitForStateAux t minT D fuel i now acc).1 = WaitOutcome.success ∧
      (waitForStateAux t minT D fuel i now acc).2.length =
        acc.length + (k + 1) := by
  intro k
  induction k with
  | zero =>
    intro fuel i now acc _ hok hD hfuel
    obtain ⟨f, rfl⟩ : ∃ f, fuel = f + 1 := ⟨fuel - 1, by omega⟩
    simp only [waitForStateAux]
    have hnow : ¬ D ≤ now := by omega
    rw [if_neg hnow]
    have hok' : t i = .ok := by simpa using hok
    have hS : virtualNetworkPeeringCreateFunc (t i) = "Succeeded" := by
      rw [hok']
      rfl
    rw [if_pos hS]
    simp
  | succ k ih =>
    intro fuel i now acc htrans hok hD hfuel
    obtain ⟨f, rfl⟩ : ∃ f, fuel = f + 1 := ⟨fuel - 1, by omega⟩
    simp only [waitForStateAux]
    have hnow : ¬ D ≤ now := by
      have : 0 ≤ minT * (k + 1) := Nat.zero_le _
      omega
    rw [if_neg hnow]
    obtain ⟨e, hte, hre⟩ := htrans 0 (by omega)
    have hte' : t i = .submitErr e := by simpa using hte
    have hP : virtualNetworkPeeringCreateFunc (t i) = "Pending" := by
      rw [hte']
      exact classify_retryable_pending e hre
    have hS : ¬ virtualNetworkPeeringCreateFunc (t i) = "Succeeded" := by
      rw [hP]
      decide
    rw [if_neg hS, if_pos hP]
    have h := ih f (i + 1) (now + minT) ((now + minT) :: acc)
      (fun j hj => by
        obtain ⟨e', h1, h2⟩ := htrans (j + 1) (by omega)
        refine ⟨e', ?_, h2⟩
        have harith : i + 1 + j = i + (j + 1) := by omega
        rw [harith]
        exact h1)
      (by
        have harith : i + 1 + k = i + (k + 1) := by omega
        rw [harith]
        exact hok)
      (by
        have : minT * (k + 1) = minT + minT * k := by ring
        omega)
      (by omega)
    refine ⟨h.1, ?_⟩
    rw [h.2]
    simp only [List.length_cons]
    omega

/-- C4: a finite run of transient (retryable) submit errors followed by a
terminal success always yields the success outcome, with exactly one request
per response: the number of transient errors does not affect the result,
only the elapsed time against the deadline does (hypothesis
`minT * k < D`). -/
theorem waitForState_transient_then_success (t : Nat → CreateOrUpdateResult)
    (minT D fuel k : Nat)
    (htrans : ∀ j, j < k → ∃ e, t j = .submitErr e ∧
      ResponseErrorIsRetryable e = true)
    (hok : t k = .ok)
    (hD : minT * k < D) (hfuel : k < fuel) :
    (waitForState t minT D fuel).1 = WaitOutcome.success ∧
    (waitForState t minT D fuel).2.length = k + 1 := by
  have h := waitForStateAux_transient_success t minT D k fuel 0 0 []
    (fun j hj => by simpa using htrans j hj)
    (by simpa using hok) (by omega) hfuel
  simpa using h

/-- Witness for C4: five 503 responses followed by a success give the
success outcome after exactly six requests. -/
theorem waitForState_transient_then_success_witness :
    (waitForState
      (fun i => if i < 5 then .submitErr ⟨false, true, 503, "oops"⟩ else .ok)
      15 300 25).1 = WaitOutcome.success ∧
    (waitForState
      (fun i => if i < 5 then .submitErr ⟨false, true, 503, "oops"⟩ else .ok)
      15 300 25).2.length = 5 + 1 :=
  waitForState_transient_then_success _ 15 300 25 5
    (by
      intro j hj
      interval_cases j <;>
        exact ⟨⟨false, true, 503, "oops"⟩, rfl, by decide⟩)
    (by decide) (by decide) (by decide)

/-- The fields of `network.VirtualNetworkPeeringPropertiesFormat` the
resource touches: the four negotiable flags, the remote virtual network
reference, and two representative fields of the remainder of the wire
struct (peering state and remote address space) standing for the frame the
update must not disturb. -/
structure VirtualNetworkPeeringPropertiesFormat where
  allowVirtualNetworkAccess : Option Bool
  allowForwardedTraffic : Option Bool
  allowGatewayTransit : Option Bool
  useRemoteGateways : Option Bool
  remoteVirtualNetwork : Option String
  peeringState : Option String
  remoteAddressSpace : Option String
  deriving DecidableEq, Repr

/-- Result of the `client.Get` call in
`resourceVirtualNetworkPeeringRead`: a successful response with its
(possibly absent) properties, a not-found response, or any other error. -/
inductive GetPeeringResult where
  | ok (props : Option VirtualNetworkPeeringPropertiesFormat)
  | notFound
  | errOther
  deriving DecidableEq, Repr

/-- The slice of the local `pluginsdk.ResourceData` state touched by the
peering resource: the resource id and the schema fields Read sets. -/
structure PeeringResourceData where
  id : String
  allowVirtualNetworkAccess : Option Bool
  allowForwardedTraffic : Option Bool
  allowGatewayTransit : Option Bool
  useRemoteGateways : Option Bool
  remoteVirtualNetworkId : Option String
  deriving DecidableEq, Repr

/-- `resourceVirtualNetworkPeeringRead` of
`internal/services/network/virtual_network_peering_resource.go`, after the
GET has returned: a not-found error clears the local id (`d.SetId("")`) and
returns nil; any other GET error is returned with the state untouched; a
successful response has its property fields copied into state, where the
remote virtual network id is re-parsed case-insensitively through the
collaborator `parseRemoteId` (the `parse` package is outside the provided
sources), whose failure is returned as an error. -/
def resourceVirtualNetworkPeeringRead
    (parseRemoteId : String → Option String)
    (d : PeeringResourceData) (resp : GetPeeringResult) :
    PeeringResourceData × Option String :=
  match resp with
  | .notFound => ({ d with id := "" }, none)
  | .errOther => (d, some "retrieving: error")
  | .ok props =>
    match props with
    | none => (d, none)
    | some peer =>
      let d1 := { d with
        allowVirtualNetworkAccess := peer.allowVirtualNetworkAccess,
        allowForwardedTraffic := peer.allowForwardedTraffic,
        allowGatewayTransit := peer.allowGatewayTransit,
        useRemoteGateways := peer.useRemoteGateways }
      match peer.remoteVirtualNetwork with
      | none => ({ d1 with remoteVirtualNetworkId := some "" }, none)
      | some rid =>
        match parseRemoteId rid with
        | none => (d1, some "parsing remote virtual network id: error")
        | some canonical =>
          ({ d1 with remoteVirtualNetworkId := some canonical }, none)

/-- C9: a Read whose GET reports not-found clears the local state id and
returns success, while any other GET failure returns an error and leaves
the local state id unchanged. -/
theorem read_not_found_clears_id (parseRemoteId : String → Option String)
    (d : PeeringResourceData) :
    (resourceVirtualNetworkPeeringRead parseRemoteId d .notFound).1.id = "" ∧
    (resourceVirtualNetworkPeeringRead parseRemoteId d .notFound).2 = none ∧
    (resourceVirtualNetworkPeeringRead parseRemoteId d .errOther).2 =
      some "retrieving: error" ∧
    (resourceVirtualNetworkPeeringRead parseRemoteId d .errOther).1 = d := by
  refine ⟨rfl, rfl, rfl, rfl⟩

/-- The configuration diff seen by
`resourceVirtualNetworkPeeringUpdate`: for each of the four flag fields,
whether `d.HasChange` reports a change and the configured value
`d.Get` would return. -/
structure PeeringUpdateConfig where
  changedAllowForwardedTraffic : Bool
  cfgAllowForwardedTraffic : Bool
  changedAllowGatewayTransit : Bool
  cfgAllowGatewayTransit : Bool
  changedAllowVirtualNetworkAccess : Bool
  cfgAllowVirtualNetworkAccess : Bool
  changedUseRemoteGateways : Bool
  cfgUseRemoteGateways : Bool
  deriving DecidableEq, Repr

/-- The property model submitted by
`resourceVirtualNetworkPeeringUpdate`: it starts from the properties just
fetched from the remote resource and overwrites exactly the flag fields
whose configuration changed, in the source's order. -/
def resourceVirtualNetworkPeeringUpdateProps
    (existing : VirtualNetworkPeeringPropertiesFormat)
    (c : PeeringUpdateConfig) : VirtualNetworkPeeringPropertiesFormat :=
  let p1 := if c.changedAllowForwardedTraffic then
      { existing with allowForwardedTraffic := some c.cfgAllowForwardedTraffic }
    else existing
  let p2 := if c.changedAllowGatewayTransit then
      { p1 with allowGatewayTransit := some c.cfgAllowGatewayTransit }
    else p1
  let p3 := if c.changedAllowVirtualNetworkAccess then
      { p2 with allowVirtualNetworkAccess := some c.cfgAllowVirtualNetworkAccess }
    else p2
  if c.changedUseRemoteGateways then
    { p3 with useRemoteGateways := some c.cfgUseRemoteGateways }
  else p3

/-- C10: Update is change-framed — each of the four flag fields is
submitted as the configured value when its configuration changed and as the
value just fetched from the remote resource otherwise, and every other
property field is submitted exactly as fetched. -/
theorem update_is_change_framed
    (existing : VirtualNetworkPeeringPropertiesFormat)
    (c : PeeringUpdateConfig) :
    (resourceVirtualNetworkPeeringUpdateProps existing c).allowForwardedTraffic =
      (if c.changedAllowForwardedTraffic then some c.cfgAllowForwardedTraffic
        else existing.allowForwardedTraffic) ∧
    (resourceVirtualNetworkPeeringUpdateProps existing c).allowGatewayTransit =
      (if c.changedAllowGatewayTransit then some c.cfgAllowGatewayTransit
        else existing.allowGatewayTransit) ∧
    (resourceVirtualNetworkPeeringUpdateProps existing c).allowVirtualNetworkAccess =
      (if c.changedAllowVirtualNetworkAccess then some c.cfgAllowVirtualNetworkAccess
        else existing.allowVirtualNetworkAccess) ∧
    (resourceVirtualNetworkPeeringUpdateProps existing c).useRemoteGateways =
      (if c.changedUseRemoteGateways then some c.cfgUseRemoteGateways
        else existing.useRemoteGateways) ∧
    (resourceVirtualNetworkPeeringUpdateProps existing c).remoteVirtualNetwork =
      existing.remoteVirtualNetwork ∧
    (resourceVirtualNetworkPeeringUpdateProps existing c).peeringState =
      existing.peeringState ∧
    (resourceVirtualNetworkPeeringUpdateProps existing c).remoteAddressSpace =
      existing.remoteAddressSpace := by
  obtain ⟨cf, vf, cg, vg, cv, vv, cu, vu⟩ := c
  unfold resourceVirtualNetworkPeeringUpdateProps
  cases cf <;> cases cg <;> cases cv <;> cases cu <;> simp

/-- JSON values; numbers are rationals, covering everything
JSON-representable (Go `json.Marshal` fails only on values JSON cannot
represent, which this type excludes, so the marshaling steps below are
total). -/
inductive Json where
  | null : Json
  | bool (b : Bool) : Json
  | num (q : ℚ) : Json
  | str (s : String) : Json
  | arr (xs : List Json) : Json
  | obj (fields : List (String × Json)) : Json

/-- Look a key up in a JSON object; `none` on any other value. -/
def jsonLookup (j : Json) (k : String) : Option Json :=
  match j with
  | .obj fields => fields.lookup k
  | _ => none

/-- `decoded[k] = v` on the map decoded from a JSON object: replace the
binding when the key is present, append it otherwise (models the Go
map-index assignment performed between unmarshal and re-marshal). -/
def jsonObjSet (m : List (String × Json)) (k : String) (v : Json) :
    List (String × Json) :=
  if (m.map Prod.fst).contains k then
    m.map (fun p => if p.1 = k then (k, v) else p)
  else m ++ [(k, v)]

/-- `NumberInRangeAdvancedFilter` of `src/unnamed/part_001`:
`Values *[][]float64` (key "values", omitempty) and the inherited
`Key *string` (key "key", omitempty). -/
structure NumberInRangeAdvancedFilter where
  Values : Option (List (List ℚ))
  Key : Option String

/-- The object fields `json.Marshal` produces for the wrapper type of
`NumberInRangeAdvancedFilter` (struct order, omitting nil pointers). -/
def NumberInRangeAdvancedFilter.wrapperFields
    (s : NumberInRangeAdvancedFilter) : List (String × Json) :=
  (match s.Values with
    | none => []
    | some vss =>
      [("values", Json.arr (vss.map (fun vs => Json.arr (vs.map Json.num))))]) ++
  (match s.Key with
    | none => []
    | some k => [("key", Json.str k)])

/-- `NumberInRangeAdvancedFilter.MarshalJSON` of `src/unnamed/part_001`:
marshal the wrapper, decode it back to a map, assign
`decoded["operatorType"] = "NumberInRange"`, and re-marshal. -/
def NumberInRangeAdvancedFilter.MarshalJSON
    (s : NumberInRangeAdvancedFilter) : Json :=
  Json.obj (jsonObjSet s.wrapperFields "operatorType" (.str "NumberInRange"))

/-- `StorageBlobDeadLetterDestination` of
`internal/services/eventgrid/sdk/2020-10-15-preview/eventsubscriptions/model_storageblobdeadletterdestination.go`:
a single `Properties` pointer field (key "properties", omitempty) whose
payload type lives outside the provided sources and is kept abstract. -/
structure StorageBlobDeadLetterDestination where
  Properties : Option Json

/-- The object fields `json.Marshal` produces for the wrapper type of
`StorageBlobDeadLetterDestination`. -/
def StorageBlobDeadLetterDestination.wrapperFields
    (s : StorageBlobDeadLetterDestination) : List (String × Json) :=
  match s.Properties with
  | none => []
  | some p => [("properties", p)]

/-- `StorageBlobDeadLetterDestination.MarshalJSON`: marshal the wrapper,
decode to a map, assign `decoded["endpointType"] = "StorageBlob"`, and
re-marshal. -/
def StorageBlobDeadLetterDestination.MarshalJSON
    (s : StorageBlobDeadLetterDestination) : Json :=
  Json.obj (jsonObjSet s.wrapperFields "endpointType" (.str "StorageBlob"))

/-- C7: for every value of the discriminator-tagged variant types, the
(total) MarshalJSON produces a JSON object in which the discriminator key is
bound to the variant's fixed constant — "operatorType" ↦ "NumberInRange"
and "endpointType" ↦ "StorageBlob" — whatever the field contents. -/
theorem marshalJSON_injects_discriminator :
    (∀ s : NumberInRangeAdvancedFilter,
      jsonLookup s.MarshalJSON "operatorType" =
        some (.str "NumberInRange")) ∧
    (∀ s : StorageBlobDeadLetterDestination,
      jsonLookup s.MarshalJSON "endpointType" =
        some (.str "StorageBlob")) := by
  constructor
  · intro s
    obtain ⟨v, k⟩ := s
    cases v <;> cases k <;>
      simp [NumberInRangeAdvancedFilter.MarshalJSON,
        NumberInRangeAdvancedFilter.wrapperFields, jsonObjSet, jsonLookup,
        List.lookup]
  · intro s
    obtain ⟨p⟩ := s
    cases p <;>
      simp [StorageBlobDeadLetterDestination.MarshalJSON,
        StorageBlobDeadLetterDestination.wrapperFields, jsonObjSet, jsonLookup,
        List.lookup]

/-- The initial HTTP response to a submitted mutation, as the poller
constructor sees it: the status code, the (possibly absent) decoded body,
and whether the body carries an explicit non-terminal status marker. -/
structure HttpResponse where
  statusCode : Nat
  body : Option Json
  nonTerminalStatusMarker : Bool

/-- A remote status observation during polling. -/
inductive PollStatus where
  | inProgress : PollStatus
  | succeeded (payload : Option Json) : PollStatus
  | failed : PollStatus

/-- Modelled from the spec: `resourcemanager.PollerFromResponse` of
go-azure-sdk is not among the provided source files. Per the spec, an
initial response that already carries a terminal status code (200/201 in
this API's convention) with no explicit non-terminal status marker
short-circuits — the poller is born terminal holding that body; any other
response requires polling. -/
inductive PollerInit where
  | done (payload : Option Json) : PollerInit
  | needsPolling : PollerInit

/-- Modelled from the spec (see `PollerInit`). -/
def PollerFromResponse (r : HttpResponse) : PollerInit :=
  if (r.statusCode = 200 ∨ r.statusCode = 201) ∧
      r.nonTerminalStatusMarker = false then
    .done r.body
  else .needsPolling

/-- The polling loop of `PollUntilDone` when the poller was not born
terminal: issue status requests until a terminal status, counting them. -/
def pollLoopAux (trace : Nat → PollStatus) :
    Nat → Nat → Option (Option Json) × Nat
  | 0, n => (none, n)
  | fuel + 1, n =>
    match trace n with
    | .inProgress => pollLoopAux trace fuel (n + 1)
    | .succeeded payload => (some payload, n + 1)
    | .failed => (none, n + 1)

/-- Modelled from the spec: `Poller.PollUntilDone` — a poller born terminal
returns its payload with zero status requests; otherwise the loop polls the
status endpoint. Returns the result together with the number of status
requests issued. -/
def PollUntilDone (p : PollerInit) (trace : Nat → PollStatus) (fuel : Nat) :
    Option (Option Json) × Nat :=
  match p with
  | .done payload => (some payload, 0)
  | .needsPolling => pollLoopAux trace fuel 0

/-- The fields of `UpdateMobilityServiceOperationResponse` the polling
contract involves (vendored go-azure-sdk
`method_updatemobilityservice.go`). -/
structure UpdateMobilityServiceOperationResponse where
  model : Option Json
  poller : PollerInit

/-- `UpdateMobilityService` after a successful execute: unmarshal the
response body into the model and build the poller from the response. -/
def UpdateMobilityService (resp : HttpResponse) :
    UpdateMobilityServiceOperationResponse :=
  { model := resp.body, poller := PollerFromResponse resp }

/-- C6: when the initial mutating response already carries a terminal
status code (200 or 201) and no non-terminal status marker, the poller
built by `UpdateMobilityService` short-circuits: `PollUntilDone` issues
zero additional status requests — whatever the status endpoint would have
answered — and returns that response body directly. -/
theorem pollUntilDone_short_circuit (resp : HttpResponse)
    (trace : Nat → PollStatus) (fuel : Nat)
    (hcode : resp.statusCode = 200 ∨ resp.statusCode = 201)
    (hmarker : resp.nonTerminalStatusMarker = false) :
    PollUntilDone (UpdateMobilityService resp).poller trace fuel =
      (some resp.body, 0) := by
  have hp : (UpdateMobilityService resp).poller = .done resp.body := by
    show PollerFromResponse resp = .done resp.body
    unfold PollerFromResponse
    rw [if_pos ⟨hcode, hmarker⟩]
  rw [hp]
  rfl

/-- Witness for C6: a 200 response with a full body and no status marker is
returned directly with zero status requests. -/
theorem pollUntilDone_short_circuit_witness :
    PollUntilDone
      (UpdateMobilityService ⟨200, some (.str "resource"), false⟩).poller
      (fun _ => .inProgress) 7 = (some (some (.str "resource")), 0) :=
  pollUntilDone_short_circuit ⟨200, some (.str "resource"), false⟩
    (fun _ => .inProgress) 7 (Or.inl rfl) rfl

/-- `LocationTopicTypeId` of `src/unnamed/part_002`: the three parsed
segment values of a Location Topic Type resource id. -/
structure LocationTopicTypeId where
  SubscriptionId : String
  Location : String
  TopicTypeName : String
  deriving DecidableEq, Repr

/-- `NewLocationTopicTypeID` of `src/unnamed/part_002`. -/
def NewLocationTopicTypeID (subscriptionId location topicTypeName : String) :
    LocationTopicTypeId :=
  ⟨subscriptionId, location, topicTypeName⟩

/-- Join path segments with a leading slash before each:
`slashPath [a, b] = "/a/b"` as characters. -/
def slashPath : List (List Char) → List Char
  | [] => []
  | s :: ss => '/' :: (s ++ slashPath ss)

/-- `LocationTopicTypeId.ID` of `src/unnamed/part_002`, the format string
"/subscriptions/%s/providers/Microsoft.EventGrid/locations/%s/topicTypes/%s". -/
def LocationTopicTypeId.ID (id : LocationTopicTypeId) : String :=
  String.mk (slashPath ["subscriptions".data, id.SubscriptionId.data,
    "providers".data, "Microsoft.EventGrid".data, "locations".data,
    id.Location.data, "topicTypes".data, id.TopicTypeName.data])

example :
    (NewLocationTopicTypeID "12345678-1234-9876-4563-123456789012"
      "locationValue" "topicTypeValue").ID =
    "/subscriptions/12345678-1234-9876-4563-123456789012/providers/Microsoft.EventGrid/locations/locationValue/topicTypes/topicTypeValue" := by
  decide

/-- Split a character list at every '/'. -/
def splitSlash : List Char → List (List Char)
  | [] => [[]]
  | c :: rest =>
    if c = '/' then [] :: splitSlash rest
    else
      match splitSlash rest with
      | [] => [[c]]
      | s :: ss => (c :: s) :: ss

/-- Splitting a slash-free list yields that single component. -/
theorem splitSlash_no_slash (a : List Char) (h : a.contains '/' = false) :
    splitSlash a = [a] := by
  induction a with
  | nil => rfl
  | cons c rest ih =>
    simp only [List.contains_cons, Bool.or_eq_false_iff, beq_eq_false_iff_ne] at h
    simp only [splitSlash]
    rw [if_neg (by exact fun hc => h.1 hc.symm)]
    rw [ih (by simpa using h.2)]

/-- Splitting `a ++ "/" ++ r` with `a` slash-free peels off `a`. -/
theorem splitSlash_append (a r : List Char) (h : a.contains '/' = false) :
    splitSlash (a ++ '/' :: r) = a :: splitSlash r := by
  induction a with
  | nil =>
    simp [splitSlash]
  | cons c rest ih =>
    simp only [List.contains_cons, Bool.or_eq_false_iff, beq_eq_false_iff_ne] at h
    simp only [List.cons_append, splitSlash]
    rw [if_neg (by exact fun hc => h.1 hc.symm)]
    simp only [List.append_eq]
    rw [ih (by simpa using h.2)]

/-- Splitting `s ++ slashPath segs` with slash-free components recovers
them all. -/
theorem splitSlash_append_slashPath :
    ∀ (segs : List (List Char)) (s : List Char),
      s.contains '/' = false → (∀ x ∈ segs, x.contains '/' = false) →
      splitSlash (s ++ slashPath segs) = s :: segs := by
  intro segs
  induction segs with
  | nil =>
    intro s hs _
    simp only [slashPath, List.append_nil]
    exact splitSlash_no_slash s hs
  | cons x ss ih =>
    intro s hs hmem
    simp only [slashPath]
    rw [show s ++ '/' :: (x ++ slashPath ss) = s ++ '/' :: (x ++ slashPath ss)
      from rfl]
    rw [splitSlash_append s (x ++ slashPath ss) hs]
    rw [ih x (hmem x (by simp)) (fun y hy => hmem y (by simp [hy]))]

/-- Splitting a slash-joined path of slash-free components yields a leading
empty component followed by the components. -/
theorem splitSlash_slashPath (segs : List (List Char))
    (hmem : ∀ x ∈ segs, x.contains '/' = false) :
    splitSlash (slashPath segs) = [] :: segs := by
  cases segs with
  | nil => rfl
  | cons x ss =>
    simp only [slashPath]
    show splitSlash ([] ++ '/' :: (x ++ slashPath ss)) = [] :: x :: ss
    rw [splitSlash_append [] (x ++ slashPath ss) rfl]
    rw [splitSlash_append_slashPath ss x (hmem x (by simp))
      (fun y hy => hmem y (by simp [hy]))]

/-- Static-segment comparison: exact match, or match up to letter case in
the insensitive mode (the spec's "case-insensitive parse tolerance"). -/
def matchStatic (insensitive : Bool) (expected actual : List Char) : Bool :=
  if insensitive then
    actual.map Char.toLower == expected.map Char.toLower
  else actual == expected

/-- Modelled from the spec: the generic segment parser of go-azure-helpers
(`resourceids.NewParserFromResourceIdType` / `Parse`) is not among the
provided source files. Driven by `LocationTopicTypeId.Segments` of
`src/unnamed/part_002`: the path must consist of the static segments
"subscriptions", "providers", "Microsoft.EventGrid", "locations",
"topicTypes" — matched exactly, or up to letter case when `insensitive` —
interleaved with the three non-empty user-specified values, which are
captured as-is. -/
def parseLocationTopicTypeAux (insensitive : Bool) (input : String) :
    Option LocationTopicTypeId :=
  match splitSlash input.data with
  | [lead, c1, sub, c2, c3, c4, loc, c5, tt] =>
    if lead.isEmpty && matchStatic insensitive "subscriptions".data c1 &&
        matchStatic insensitive "providers".data c2 &&
        matchStatic insensitive "Microsoft.EventGrid".data c3 &&
        matchStatic insensitive "locations".data c4 &&
        matchStatic insensitive "topicTypes".data c5 &&
        !sub.isEmpty && !loc.isEmpty && !tt.isEmpty then
      some ⟨String.mk sub, String.mk loc, String.mk tt⟩
    else none
  | _ => none

/-- `ParseLocationTopicTypeID` of `src/unnamed/part_002`: case-sensitive
parse. -/
def ParseLocationTopicTypeID (input : String) : Option LocationTopicTypeId :=
  parseLocationTopicTypeAux false input

/-- `ParseLocationTopicTypeIDInsensitively` of `src/unnamed/part_002`:
case-insensitive parse for API response data. -/
def ParseLocationTopicTypeIDInsensitively (input : String) :
    Option LocationTopicTypeId :=
  parseLocationTopicTypeAux true input

example :
    ParseLocationTopicTypeID
      "/subscriptions/s1/providers/Microsoft.EventGrid/locations/l1/topicTypes/t1" =
    some ⟨"s1", "l1", "t1"⟩ := by decide

example :
    ParseLocationTopicTypeID
      "/SUBSCRIPTIONS/s1/providers/Microsoft.EventGrid/locations/l1/topicTypes/t1" =
    none := by decide

example :
    ParseLocationTopicTypeIDInsensitively
      "/SUBSCRIPTIONS/s1/PROVIDERS/microsoft.eventgrid/Locations/l1/topictypes/t1" =
    some ⟨"s1", "l1", "t1"⟩ := by decide

/-- A well-formed segment value: non-empty and free of path separators. -/
def validSegmentValue (s : String) : Bool :=
  !s.data.isEmpty && !s.data.contains '/'

/-- A case variant of a canonical static segment: slash-free and equal to
the canonical text up to letter case. -/
def caseVariantOf (actual canonical : String) : Bool :=
  !actual.data.contains '/' &&
    (actual.data.map Char.toLower == canonical.data.map Char.toLower)

/-- An id path whose five static segments are replaced by case variants. -/
def caseVariantPath (c1 c2 c3 c4 c5 : String) (id : LocationTopicTypeId) :
    String :=
  String.mk (slashPath [c1.data, id.SubscriptionId.data, c2.data, c3.data,
    c4.data, id.Location.data, c5.data, id.TopicTypeName.data])

/-- Unpack `validSegmentValue`. -/
theorem validSegmentValue_spec (s : String)
    (h : validSegmentValue s = true) :
    s.data.isEmpty = false ∧ s.data.contains '/' = false := by
  unfold validSegmentValue at h
  simp only [Bool.and_eq_true, Bool.not_eq_true'] at h
  exact h

/-- Unpack `caseVariantOf`. -/
theorem caseVariantOf_spec (a c : String) (h : caseVariantOf a c = true) :
    a.data.contains '/' = false ∧
      a.data.map Char.toLower = c.data.map Char.toLower := by
  unfold caseVariantOf at h
  simp only [Bool.and_eq_true, Bool.not_eq_true', beq_iff_eq] at h
  exact h

/-- Reduce the parser on an input with a known nine-component split. -/
theorem parseAux_of_split (insensitive : Bool) (input : String)
    (lead c1 sub c2 c3 c4 loc c5 tt : List Char)
    (h : splitSlash input.data = [lead, c1, sub, c2, c3, c4, loc, c5, tt]) :
    parseLocationTopicTypeAux insensitive input =
      if lead.isEmpty && matchStatic insensitive "subscriptions".data c1 &&
          matchStatic insensitive "providers".data c2 &&
          matchStatic insensitive "Microsoft.EventGrid".data c3 &&
          matchStatic insensitive "locations".data c4 &&
          matchStatic insensitive "topicTypes".data c5 &&
          !sub.isEmpty && !loc.isEmpty && !tt.isEmpty then
        some ⟨String.mk sub, String.mk loc, String.mk tt⟩
      else none := by
  unfold parseLocationTopicTypeAux
  rw [h]

/-- C8: resource-id formatting and parsing round-trip — for every
`LocationTopicTypeId` with well-formed segment values,
`ParseLocationTopicTypeID (id.ID)` returns the original id, and
`ParseLocationTopicTypeIDInsensitively` additionally accepts the id path
with its five static segments replaced by arbitrary letter-case variants,
returning the same parsed segments. -/
theorem parseLocationTopicTypeID_roundtrip (id : LocationTopicTypeId)
    (c1 c2 c3 c4 c5 : String)
    (h1 : validSegmentValue id.SubscriptionId = true)
    (h2 : validSegmentValue id.Location = true)
    (h3 : validSegmentValue id.TopicTypeName = true)
    (hc1 : caseVariantOf c1 "subscriptions" = true)
    (hc2 : caseVariantOf c2 "providers" = true)
    (hc3 : caseVariantOf c3 "Microsoft.EventGrid" = true)
    (hc4 : caseVariantOf c4 "locations" = true)
    (hc5 : caseVariantOf c5 "topicTypes" = true) :
    ParseLocationTopicTypeID id.ID = some id ∧
    ParseLocationTopicTypeIDInsensitively
      (caseVariantPath c1 c2 c3 c4 c5 id) = some id := by
  constructor
  · have hsplit : splitSlash (id.ID).data =
        [[], "subscriptions".data, id.SubscriptionId.data, "providers".data,
          "Microsoft.EventGrid".data, "locations".data, id.Location.data,
          "topicTypes".data, id.TopicTypeName.data] := by
      show splitSlash (slashPath _) = _
      rw [splitSlash_slashPath]
      intro x hx
      simp only [List.mem_cons, List.not_mem_nil, or_false] at hx
      rcases hx with rfl | rfl | rfl | rfl | rfl | rfl | rfl | rfl
      · decide
      · exact (validSegmentValue_spec _ h1).2
      · decide
      · decide
      · decide
      · exact (validSegmentValue_spec _ h2).2
      · decide
      · exact (validSegmentValue_spec _ h3).2
    show parseLocationTopicTypeAux false id.ID = some id
    rw [parseAux_of_split false id.ID _ _ _ _ _ _ _ _ _ hsplit]
    rw [if_pos]
    have n1 : id.SubscriptionId.data ≠ [] := by
      simpa using (validSegmentValue_spec _ h1).1
    have n2 : id.Location.data ≠ [] := by
      simpa using (validSegmentValue_spec _ h2).1
    have n3 : id.TopicTypeName.data ≠ [] := by
      simpa using (validSegmentValue_spec _ h3).1
    simp [matchStatic, n1, n2, n3]
  · have hsplit : splitSlash (caseVariantPath c1 c2 c3 c4 c5 id).data =
        [[], c1.data, id.SubscriptionId.data, c2.data, c3.data, c4.data,
          id.Location.data, c5.data, id.TopicTypeName.data] := by
      show splitSlash (slashPath _) = _
      rw [splitSlash_slashPath]
      intro x hx
      simp only [List.mem_cons, List.not_mem_nil, or_false] at hx
      rcases hx with rfl | rfl | rfl | rfl | rfl | rfl | rfl | rfl
      · exact (caseVariantOf_spec _ _ hc1).1
      · exact (validSegmentValue_spec _ h1).2
      · exact (caseVariantOf_spec _ _ hc2).1
      · exact (caseVariantOf_spec _ _ hc3).1
      · exact (caseVariantOf_spec _ _ hc4).1
      · exact (validSegmentValue_spec _ h2).2
      · exact (caseVariantOf_spec _ _ hc5).1
      · exact (validSegmentValue_spec _ h3).2
    show parseLocationTopicTypeAux true (caseVariantPath c1 c2 c3 c4 c5 id) =
      some id
    rw [parseAux_of_split true _ _ _ _ _ _ _ _ _ _ hsplit]
    rw [if_pos]
    have n1 : id.SubscriptionId.data ≠ [] := by
      simpa using (validSegmentValue_spec _ h1).1
    have n2 : id.Location.data ≠ [] := by
      simpa using (validSegmentValue_spec _ h2).1
    have n3 : id.TopicTypeName.data ≠ [] := by
      simpa using (validSegmentValue_spec _ h3).1
    simp [matchStatic, n1, n2, n3, (caseVariantOf_spec _ _ hc1).2,
      (caseVariantOf_spec _ _ hc2).2, (caseVariantOf_spec _ _ hc3).2,
      (caseVariantOf_spec _ _ hc4).2, (caseVariantOf_spec _ _ hc5).2]

/-- Witness for C8 at concrete segment values and concrete case variants
of the static segments. -/
theorem parseLocationTopicTypeID_roundtrip_witness :
    ParseLocationTopicTypeID
      (LocationTopicTypeId.ID ⟨"sub1", "westus", "tt1"⟩) =
      some ⟨"sub1", "westus", "tt1"⟩ ∧
    ParseLocationTopicTypeIDInsensitively
      (caseVariantPath "SUBSCRIPTIONS" "Providers" "microsoft.EVENTGRID"
        "LOCATIONS" "topictypes" ⟨"sub1", "westus", "tt1"⟩) =
      some ⟨"sub1", "westus", "tt1"⟩ :=
  parseLocationTopicTypeID_roundtrip ⟨"sub1", "westus", "tt1"⟩
    "SUBSCRIPTIONS" "Providers" "microsoft.EVENTGRID" "LOCATIONS" "topictypes"
    (by decide) (by decide) (by decide) (by decide) (by decide) (by decide)
    (by decide) (by decide)

/-- The lock and remote actions a peering CRUD function performs, in
order. -/
inductive Act where
  | lock : Act
  | unlock : Act
  | remoteRead : Act
  | remoteMutate : Act
  deriving DecidableEq, Repr

/-- No lock or unlock occurs in the trace. -/
def actLockFree (tr : List Act) : Prop :=
  ∀ a ∈ tr, a ≠ Act.lock ∧ a ≠ Act.unlock

/-- No remote-mutating request occurs in the trace. -/
def actMutateFree (tr : List Act) : Prop :=
  ∀ a ∈ tr, a ≠ Act.remoteMutate

/-- A trace respects the peerMutex discipline: either it never takes the
lock and never mutates, or it is a leading run without locks or mutations, a
single lock acquisition, a body without further lock operations, a single
release, and a suffix without locks or mutations — so every remote-mutating
request happens under the single lock/unlock pair, and the lock is released
exactly once on every path that acquired it. -/
def Bracketed (tr : List Act) : Prop :=
  (actLockFree tr ∧ actMutateFree tr) ∨
  ∃ pre mid post, tr = pre ++ [Act.lock] ++ mid ++ [Act.unlock] ++ post ∧
    actLockFree pre ∧ actMutateFree pre ∧ actLockFree mid ∧
    actLockFree post ∧ actMutateFree post

/-- `resourceVirtualNetworkPeeringCreate` as its sequence of lock and
remote actions: the existence GET first; when it reports not-found the
lock is taken, the wait loop issues one CreateOrUpdate per consulted
response, a successful wait re-reads the resource (the trailing Read call
runs before the deferred unlock), and the deferred unlock runs on every
path out of the locked region. A found resource or a failed existence
check returns before the lock is ever taken. -/
def createTrace (g : GetPeeringResult) (trace : Nat → CreateOrUpdateResult)
    (minT D fuel : Nat) : List Act :=
  match g with
  | .ok _ => [.remoteRead]
  | .errOther => [.remoteRead]
  | .notFound =>
    [.remoteRead, .lock] ++
      List.replicate (waitForState trace minT D fuel).2.length
        .remoteMutate ++
      (if (waitForState trace minT D fuel).1 = .success then [.remoteRead]
        else []) ++ [.unlock]

/-- `resourceVirtualNetworkPeeringUpdate` as its action sequence: a parse
failure returns before any remote action; otherwise the lock is taken, the
existing resource fetched, and — unless the fetch failed or carried no
properties — the CreateOrUpdate submitted, its future polled (`w` status
reads), and on success the resource re-read; the deferred unlock runs once
on every path out of the locked region. -/
def updateTrace (parseOk : Bool) (g : GetPeeringResult) (submitOk : Bool)
    (w : Nat) (waitOk : Bool) : List Act :=
  if !parseOk then []
  else
    [.lock, .remoteRead] ++
      (match g with
        | .ok (some _) =>
          [.remoteMutate] ++
            (if submitOk then
              List.replicate w .remoteRead ++
                (if waitOk then [.remoteRead] else [])
            else [])
        | _ => []) ++ [.unlock]

/-- `resourceVirtualNetworkPeeringDelete` as its action sequence: a parse
failure returns before any remote action; otherwise the lock is taken, the
DELETE submitted and — when the submit succeeded — its future polled (`w`
status reads); the deferred unlock runs once on every path out of the
locked region. -/
def deleteTrace (parseOk : Bool) (submitOk : Bool) (w : Nat) : List Act :=
  if !parseOk then []
  else
    [.lock, .remoteMutate] ++
      (if submitOk then List.replicate w .remoteRead else []) ++ [.unlock]

/-- Every create trace is lock-bracketed. -/
theorem createTrace_bracketed (g : GetPeeringResult)
    (trace : Nat → CreateOrUpdateResult) (minT D fuel : Nat) :
    Bracketed (createTrace g trace minT D fuel) := by
  cases g with
  | ok _ =>
    left
    constructor <;> intro a ha <;> simp [createTrace] at ha <;> simp [ha]
  | errOther =>
    left
    constructor <;> intro a ha <;> simp [createTrace] at ha <;> simp [ha]
  | notFound =>
    right
    refine ⟨[.remoteRead],
      List.replicate (waitForState trace minT D fuel).2.length .remoteMutate ++
        (if (waitForState trace minT D fuel).1 = .success then [.remoteRead]
          else []),
      [], ?_, ?_, ?_, ?_, ?_, ?_⟩
    · simp [createTrace]
    · intro a ha
      simp at ha
      simp [ha]
    · intro a ha
      simp at ha
      simp [ha]
    · intro a ha
      by_cases hs : (waitForState trace minT D fuel).1 = WaitOutcome.success <;>
        refine ⟨?_, ?_⟩ <;> rintro rfl <;> simp [hs] at ha
    · intro a ha
      simp at ha
    · intro a ha
      simp at ha

/-- Every update trace is lock-bracketed. -/
theorem updateTrace_bracketed (parseOk : Bool) (g : GetPeeringResult)
    (submitOk : Bool) (w : Nat) (waitOk : Bool) :
    Bracketed (updateTrace parseOk g submitOk w waitOk) := by
  cases parseOk with
  | false =>
    left
    constructor <;> intro a ha <;> simp [updateTrace] at ha
  | true =>
    right
    refine ⟨[],
      [.remoteRead] ++
        (match g with
          | .ok (some _) =>
            [.remoteMutate] ++
              (if submitOk then
                List.replicate w .remoteRead ++
                  (if waitOk then [.remoteRead] else [])
              else [])
          | _ => []),
      [], ?_, ?_, ?_, ?_, ?_, ?_⟩
    · show updateTrace true g submitOk w waitOk = _
      simp [updateTrace]
    · intro a ha
      simp at ha
    · intro a ha
      simp at ha
    · intro a ha
      rcases g with props | _ | _
      · rcases props with _ | p
        · refine ⟨?_, ?_⟩ <;> rintro rfl <;> simp_all
        · cases submitOk <;> cases waitOk <;>
            refine ⟨?_, ?_⟩ <;> rintro rfl <;> simp_all
      · refine ⟨?_, ?_⟩ <;> rintro rfl <;> simp_all
      · refine ⟨?_, ?_⟩ <;> rintro rfl <;> simp_all
    · intro a ha
      simp at ha
    · intro a ha
      simp at ha

/-- Every delete trace is lock-bracketed. -/
theorem deleteTrace_bracketed (parseOk submitOk : Bool) (w : Nat) :
    Bracketed (deleteTrace parseOk submitOk w) := by
  cases parseOk with
  | false =>
    left
    constructor <;> intro a ha <;> simp [deleteTrace] at ha
  | true =>
    right
    refine ⟨[],
      [.remoteMutate] ++ (if submitOk then List.replicate w .remoteRead
        else []),
      [], ?_, ?_, ?_, ?_, ?_, ?_⟩
    · show deleteTrace true submitOk w = _
      simp [deleteTrace]
    · intro a ha
      simp at ha
    · intro a ha
      simp at ha
    · intro a ha
      cases submitOk <;> refine ⟨?_, ?_⟩ <;> rintro rfl <;> simp_all
    · intro a ha
      simp at ha
    · intro a ha
      simp at ha

/-- Thread identifiers for two concurrent CRUD sequences on the same
lock. -/
inductive Tid where
  | a : Tid
  | b : Tid
  deriving DecidableEq, Repr

/-- `Interleaves m ta tb`: the thread-tagged action list `m` is an
interleaving of the two traces `ta` and `tb`. -/
inductive Interleaves : List (Tid × Act) → List Act → List Act → Prop where
  | nil : Interleaves [] [] []
  | consA (x : Act) (m : List (Tid × Act)) (ta tb : List Act) :
      Interleaves m ta tb → Interleaves ((Tid.a, x) :: m) (x :: ta) tb
  | consB (x : Act) (m : List (Tid × Act)) (ta tb : List Act) :
      Interleaves m ta tb → Interleaves ((Tid.b, x) :: m) ta (x :: tb)

/-- Mutex semantics of `peerMutex`: from holder state `h`, a lock step
requires the mutex free and takes it, an unlock step requires the stepping
thread to hold it and frees it, and any other action leaves it unchanged. -/
inductive MutexOk : Option Tid → List (Tid × Act) → Prop where
  | nil (h : Option Tid) : MutexOk h []
  | lockStep (t : Tid) (m : List (Tid × Act)) :
      MutexOk (some t) m → MutexOk none ((t, Act.lock) :: m)
  | unlockStep (t : Tid) (m : List (Tid × Act)) :
      MutexOk none m → MutexOk (some t) ((t, Act.unlock) :: m)
  | otherStep (h : Option Tid) (t : Tid) (x : Act) (m : List (Tid × Act)) :
      x ≠ Act.lock → x ≠ Act.unlock → MutexOk h m →
      MutexOk h ((t, x) :: m)

/-- The thread ids of the remote-mutating requests of a merged trace, in
order. -/
def mutTids (m : List (Tid × Act)) : List Tid :=
  (m.filter (fun p => p.2 == Act.remoteMutate)).map Prod.fst

theorem mutTids_cons (t : Tid) (x : Act) (m : List (Tid × Act)) :
    mutTids ((t, x) :: m) =
      if x = Act.remoteMutate then t :: mutTids m else mutTids m := by
  by_cases hx : x = Act.remoteMutate <;>
    simp [mutTids, List.filter_cons, hx]

/-- What remains of a thread still holding the lock: the rest of the body,
the single unlock, and a mutate-free suffix. -/
def CritShape (r : List Act) : Prop :=
  ∃ mid post, r = mid ++ [Act.unlock] ++ post ∧
    actLockFree mid ∧ actLockFree post ∧ actMutateFree post

/-- What remains of a thread that released the lock (or never takes it):
no lock operation and no mutating request. -/
def DeadShape (r : List Act) : Prop :=
  actLockFree r ∧ actMutateFree r

theorem dead_cons (x : Act) (r : List Act) (h : DeadShape (x :: r)) :
    x ≠ Act.lock ∧ x ≠ Act.unlock ∧ x ≠ Act.remoteMutate ∧ DeadShape r := by
  obtain ⟨h1, h2⟩ := h
  have hx := h1 x (by simp)
  have hxm := h2 x (by simp)
  exact ⟨hx.1, hx.2, hxm,
    fun y hy => h1 y (List.mem_cons_of_mem x hy),
    fun y hy => h2 y (List.mem_cons_of_mem x hy)⟩

theorem crit_cons (x : Act) (r : List Act) (h : CritShape (x :: r)) :
    (x = Act.unlock ∧ DeadShape r) ∨
    (x ≠ Act.lock ∧ x ≠ Act.unlock ∧ CritShape r) := by
  obtain ⟨mid, post, heq, hmid, hp1, hp2⟩ := h
  cases mid with
  | nil =>
    simp only [List.nil_append, List.cons_append, List.cons.injEq] at heq
    left
    refine ⟨heq.1, ?_⟩
    rw [heq.2]
    simpa using ⟨hp1, hp2⟩
  | cons y mid' =>
    simp only [List.cons_append, List.cons.injEq] at heq
    right
    have hy := hmid y (by simp)
    refine ⟨heq.1 ▸ hy.1, heq.1 ▸ hy.2,
      mid', post, heq.2, fun z hz => hmid z (List.mem_cons_of_mem y hz),
      hp1, hp2⟩

theorem bracketed_cons (x : Act) (r : List Act) (h : Bracketed (x :: r)) :
    (x ≠ Act.lock ∧ x ≠ Act.unlock ∧ x ≠ Act.remoteMutate ∧ Bracketed r) ∨
    (x = Act.lock ∧ CritShape r) := by
  rcases h with ⟨h1, h2⟩ | ⟨pre, mid, post, heq, hpre1, hpre2, hmid, hpost1, hpost2⟩
  · obtain ⟨a1, a2, a3, hd⟩ := dead_cons x r ⟨h1, h2⟩
    exact Or.inl ⟨a1, a2, a3, Or.inl hd⟩
  · cases pre with
    | nil =>
      simp only [List.nil_append, List.cons_append, List.cons.injEq] at heq
      right
      exact ⟨heq.1, mid, post, heq.2, hmid, hpost1, hpost2⟩
    | cons y pre' =>
      simp only [List.cons_append, List.cons.injEq] at heq
      left
      have hy1 := hpre1 y (by simp)
      have hy2 := hpre2 y (by simp)
      refine ⟨heq.1 ▸ hy1.1, heq.1 ▸ hy1.2, heq.1 ▸ hy2,
        Or.inr ⟨pre', mid, post, heq.2,
          fun z hz => hpre1 z (List.mem_cons_of_mem y hz),
          fun z hz => hpre2 z (List.mem_cons_of_mem y hz),
          hmid, hpost1, hpost2⟩⟩

/-- Where a thread stands relative to its single lock region. -/
inductive Phase where
  | free : Phase
  | crit : Phase
  | dead : Phase
  deriving DecidableEq, Repr

/-- The residual-trace shape each phase demands. -/
def phaseOk : Phase → List Act → Prop
  | .free, r => Bracketed r
  | .crit, r => CritShape r
  | .dead, r => DeadShape r

/-- The mutex holder each pair of phases implies. -/
def holderFor : Phase → Phase → Option Tid
  | .crit, _ => some Tid.a
  | _, .crit => some Tid.b
  | _, _ => none

/-- The admissible shapes of the merged mutate-id sequence, per phase
pair: whoever is (or gets) into the critical section first contributes its
contiguous block of mutating requests first; a dead thread contributes none. -/
def shapeOk (pa pb : Phase) (l : List Tid) : Prop :=
  match pa, pb with
  | .dead, .dead => l = []
  | .dead, _ => ∃ q, l = List.replicate q Tid.b
  | _, .dead => ∃ p, l = List.replicate p Tid.a
  | .crit, _ => ∃ p q, l = List.replicate p Tid.a ++ List.replicate q Tid.b
  | _, .crit => ∃ p q, l = List.replicate p Tid.b ++ List.replicate q Tid.a
  | .free, .free =>
    (∃ p q, l = List.replicate p Tid.a ++ List.replicate q Tid.b) ∨
    (∃ p q, l = List.replicate p Tid.b ++ List.replicate q Tid.a)

/-- Invariant of the merged execution: given the phases of the two
threads, a consistent holder, and residual traces of the right shapes, the
mutating requests of the merged trace form two contiguous per-thread
blocks. -/
theorem mutex_blocks_aux :
    ∀ (m : List (Tid × Act)) (ta tb : List Act),
      Interleaves m ta tb →
      ∀ (h : Option Tid), MutexOk h m →
      ∀ (pa pb : Phase), h = holderFor pa pb →
      ¬(pa = Phase.crit ∧ pb = Phase.crit) →
      phaseOk pa ta → phaseOk pb tb →
      shapeOk pa pb (mutTids m) := by
  intro m ta tb hI
  induction hI with
  | nil =>
    intro h hM pa pb hh hcc hpa hpb
    cases pa <;> cases pb <;>
      simp only [shapeOk, mutTids, List.filter_nil, List.map_nil] <;>
      first
        | rfl
        | exact ⟨0, rfl⟩
        | exact ⟨0, 0, rfl⟩
        | exact Or.inl ⟨0, 0, rfl⟩
  | consA x m' ta' tb ihI ih =>
    intro h hM pa pb hh hcc hpa hpb
    cases hM with
    | lockStep t mm hM' =>
      cases pa with
      | free =>
        rcases bracketed_cons _ _ hpa with ⟨hx, _, _, _⟩ | ⟨_, hcrit⟩
        · exact absurd rfl hx
        · cases pb with
          | crit => simp [holderFor] at hh
          | free =>
            have hres := ih (some Tid.a) hM' Phase.crit Phase.free rfl
              (by simp) hcrit hpb
            rw [mutTids_cons, if_neg (by decide)]
            exact Or.inl hres
          | dead =>
            have hres := ih (some Tid.a) hM' Phase.crit Phase.dead rfl
              (by simp) hcrit hpb
            rw [mutTids_cons, if_neg (by decide)]
            exact hres
      | crit =>
        rcases crit_cons _ _ hpa with ⟨hx, _⟩ | ⟨hx, _, _⟩
        · exact absurd hx (by decide)
        · exact absurd rfl hx
      | dead =>
        obtain ⟨hx, _, _, _⟩ := dead_cons _ _ hpa
        exact absurd rfl hx
    | unlockStep t mm hM' =>
      cases pa with
      | free =>
        rcases bracketed_cons _ _ hpa with ⟨_, hx, _, _⟩ | ⟨hx, _⟩
        · exact absurd rfl hx
        · exact absurd hx (by decide)
      | dead =>
        obtain ⟨_, hx, _, _⟩ := dead_cons _ _ hpa
        exact absurd rfl hx
      | crit =>
        rcases crit_cons _ _ hpa with ⟨_, hdead⟩ | ⟨_, hx, _⟩
        · cases pb with
          | crit => exact absurd ⟨rfl, rfl⟩ hcc
          | free =>
            have hres := ih none hM' Phase.dead Phase.free rfl (by simp)
              hdead hpb
            rw [mutTids_cons, if_neg (by decide)]
            obtain ⟨q, hq⟩ := hres
            exact ⟨0, q, by simpa using hq⟩
          | dead =>
            have hres := ih none hM' Phase.dead Phase.dead rfl (by simp)
              hdead hpb
            rw [mutTids_cons, if_neg (by decide)]
            exact ⟨0, by simpa using hres⟩
        · exact absurd rfl hx
    | otherStep h2 t x2 mm hne1 hne2 hM' =>
      cases pa with
      | free =>
        rcases bracketed_cons _ _ hpa with ⟨_, _, hxm, hbr⟩ | ⟨hx, _⟩
        · have hres := ih h hM' Phase.free pb hh hcc hbr hpb
          rw [mutTids_cons, if_neg hxm]
          exact hres
        · exact absurd hx hne1
      | dead =>
        obtain ⟨_, _, hxm, hd⟩ := dead_cons _ _ hpa
        have hres := ih h hM' Phase.dead pb hh hcc hd hpb
        rw [mutTids_cons, if_neg hxm]
        exact hres
      | crit =>
        rcases crit_cons _ _ hpa with ⟨hx, _⟩ | ⟨_, _, hcrit⟩
        · exact absurd hx hne2
        · have hres := ih h hM' Phase.crit pb hh hcc hcrit hpb
          by_cases hxm : x = Act.remoteMutate
          · rw [mutTids_cons, if_pos hxm]
            cases pb with
            | crit => exact absurd ⟨rfl, rfl⟩ hcc
            | dead =>
              obtain ⟨p, hp⟩ := hres
              exact ⟨p + 1, by simp [hp, List.replicate_succ]⟩
            | free =>
              obtain ⟨p, q, hpq⟩ := hres
              exact ⟨p + 1, q, by simp [hpq, List.replicate_succ]⟩
          · rw [mutTids_cons, if_neg hxm]
            exact hres
  | consB x m' ta tb' ihI ih =>
    intro h hM pa pb hh hcc hpa hpb
    cases hM with
    | lockStep t mm hM' =>
      cases pb with
      | free =>
        rcases bracketed_cons _ _ hpb with ⟨hx, _, _, _⟩ | ⟨_, hcrit⟩
        · exact absurd rfl hx
        · cases pa with
          | crit => simp [holderFor] at hh
          | free =>
            have hres := ih (some Tid.b) hM' Phase.free Phase.crit rfl
              (by simp) hpa hcrit
            rw [mutTids_cons, if_neg (by decide)]
            exact Or.inr hres
          | dead =>
            have hres := ih (some Tid.b) hM' Phase.dead Phase.crit rfl
              (by simp) hpa hcrit
            rw [mutTids_cons, if_neg (by decide)]
            exact hres
      | crit =>
        rcases crit_cons _ _ hpb with ⟨hx, _⟩ | ⟨hx, _, _⟩
        · exact absurd hx (by decide)
        · exact absurd rfl hx
      | dead =>
        obtain ⟨hx, _, _, _⟩ := dead_cons _ _ hpb
        exact absurd rfl hx
    | unlockStep t mm hM' =>
      cases pb with
      | free =>
        rcases bracketed_cons _ _ hpb with ⟨_, hx, _, _⟩ | ⟨hx, _⟩
        · exact absurd rfl hx
        · exact absurd hx (by decide)
      | dead =>
        obtain ⟨_, hx, _, _⟩ := dead_cons _ _ hpb
        exact absurd rfl hx
      | crit =>
        rcases crit_cons _ _ hpb with ⟨_, hdead⟩ | ⟨_, hx, _⟩
        · cases pa with
          | crit => exact absurd ⟨rfl, rfl⟩ hcc
          | free =>
            have hres := ih none hM' Phase.free Phase.dead rfl (by simp)
              hpa hdead
            rw [mutTids_cons, if_neg (by decide)]
            obtain ⟨p, hp⟩ := hres
            exact ⟨0, p, by simpa using hp⟩
          | dead =>
            have hres := ih none hM' Phase.dead Phase.dead rfl (by simp)
              hpa hdead
            rw [mutTids_cons, if_neg (by decide)]
            exact ⟨0, by simpa using hres⟩
        · exact absurd rfl hx
    | otherStep h2 t x2 mm hne1 hne2 hM' =>
      cases pb with
      | free =>
        rcases bracketed_cons _ _ hpb with ⟨_, _, hxm, hbr⟩ | ⟨hx, _⟩
        · have hres := ih h hM' pa Phase.free hh hcc hpa hbr
          rw [mutTids_cons, if_neg hxm]
          exact hres
        · exact absurd hx hne1
      | dead =>
        obtain ⟨_, _, hxm, hd⟩ := dead_cons _ _ hpb
        have hres := ih h hM' pa Phase.dead hh hcc hpa hd
        rw [mutTids_cons, if_neg hxm]
        exact hres
      | crit =>
        rcases crit_cons _ _ hpb with ⟨hx, _⟩ | ⟨_, _, hcrit⟩
        · exact absurd hx hne2
        · have hres := ih h hM' pa Phase.crit hh hcc hpa hcrit
          by_cases hxm : x = Act.remoteMutate
          · rw [mutTids_cons, if_pos hxm]
            cases pa with
            | crit => exact absurd ⟨rfl, rfl⟩ hcc
            | dead =>
              obtain ⟨q, hq⟩ := hres
              exact ⟨q + 1, by simp [hq, List.replicate_succ]⟩
            | free =>
              obtain ⟨p, q, hpq⟩ := hres
              exact ⟨p + 1, q, by simp [hpq, List.replicate_succ]⟩
          · rw [mutTids_cons, if_neg hxm]
            exact hres

/-- A lock-free trace contains no lock and no unlock occurrences. -/
theorem actLockFree_counts (l : List Act) (hl : actLockFree l) :
    l.count Act.lock = 0 ∧ l.count Act.unlock = 0 := by
  constructor <;> rw [List.count_eq_zero] <;> intro hm
  · exact (hl _ hm).1 rfl
  · exact (hl _ hm).2 rfl

/-- A bracketed trace releases the lock exactly as often as it acquires
it, and acquires it at most once. -/
theorem bracketed_counts (tr : List Act) (h : Bracketed tr) :
    tr.count Act.unlock = tr.count Act.lock ∧ tr.count Act.lock ≤ 1 := by
  rcases h with ⟨h1, _⟩ | ⟨pre, mid, post, heq, hpre1, _, hmid, hpost1, _⟩
  · obtain ⟨hl, hu⟩ := actLockFree_counts tr h1
    simp [hl, hu]
  · subst heq
    obtain ⟨p1, p2⟩ := actLockFree_counts pre hpre1
    obtain ⟨m1, m2⟩ := actLockFree_counts mid hmid
    obtain ⟨q1, q2⟩ := actLockFree_counts post hpost1
    simp [List.count_append, p1, p2, m1, m2, q1, q2, List.count_cons]

/-- C5: the peering CRUD lock discipline. Every Create, Update and Delete
action sequence is bracketed — the single `peerMutex` is acquired before
the first remote-mutating request, held across the whole submit-and-poll
sequence, and released exactly once on every exit path out of the locked
region (and never released without having been acquired). Consequently two
concurrent sequences on this lock never interleave their remote-mutating
requests: in every mutex-respecting interleaving the mutating requests
form one contiguous block per thread. -/
theorem peerMutex_serializes :
    (∀ (g : GetPeeringResult) (trace : Nat → CreateOrUpdateResult)
        (minT D fuel : Nat),
      Bracketed (createTrace g trace minT D fuel) ∧
      (createTrace g trace minT D fuel).count Act.unlock =
        (createTrace g trace minT D fuel).count Act.lock ∧
      (createTrace g trace minT D fuel).count Act.lock ≤ 1) ∧
    (∀ (parseOk : Bool) (g : GetPeeringResult) (submitOk : Bool) (w : Nat)
        (waitOk : Bool),
      Bracketed (updateTrace parseOk g submitOk w waitOk) ∧
      (updateTrace parseOk g submitOk w waitOk).count Act.unlock =
        (updateTrace parseOk g submitOk w waitOk).count Act.lock ∧
      (updateTrace parseOk g submitOk w waitOk).count Act.lock ≤ 1) ∧
    (∀ (parseOk submitOk : Bool) (w : Nat),
      Bracketed (deleteTrace parseOk submitOk w) ∧
      (deleteTrace parseOk submitOk w).count Act.unlock =
        (deleteTrace parseOk submitOk w).count Act.lock ∧
      (deleteTrace parseOk submitOk w).count Act.lock ≤ 1) ∧
    (∀ (m : List (Tid × Act)) (ta tb : List Act),
      Interleaves m ta tb → MutexOk none m → Bracketed ta → Bracketed tb →
      (∃ p q, mutTids m =
        List.replicate p Tid.a ++ List.replicate q Tid.b) ∨
      (∃ p q, mutTids m =
        List.replicate p Tid.b ++ List.replicate q Tid.a)) := by
  refine ⟨?_, ?_, ?_, ?_⟩
  · intro g trace minT D fuel
    have hb := createTrace_bracketed g trace minT D fuel
    exact ⟨hb, (bracketed_counts _ hb).1, (bracketed_counts _ hb).2⟩
  · intro parseOk g submitOk w waitOk
    have hb := updateTrace_bracketed parseOk g submitOk w waitOk
    exact ⟨hb, (bracketed_counts _ hb).1, (bracketed_counts _ hb).2⟩
  · intro parseOk submitOk w
    have hb := deleteTrace_bracketed parseOk submitOk w
    exact ⟨hb, (bracketed_counts _ hb).1, (bracketed_counts _ hb).2⟩
  · intro m ta tb hI hM hta htb
    exact mutex_blocks_aux m ta tb hI none hM Phase.free Phase.free rfl
      (by simp) hta htb

/-- Witness for C5: a concrete mutex-respecting interleaving of a create
sequence (whose existence check finds the resource, so it never locks) and
a delete sequence; the merged mutating requests form contiguous blocks. -/
theorem peerMutex_serializes_witness :
    (∃ p q, mutTids [(Tid.a, Act.remoteRead), (Tid.b, Act.lock),
        (Tid.b, Act.remoteMutate), (Tid.b, Act.unlock)] =
      List.replicate p Tid.a ++ List.replicate q Tid.b) ∨
    (∃ p q, mutTids [(Tid.a, Act.remoteRead), (Tid.b, Act.lock),
        (Tid.b, Act.remoteMutate), (Tid.b, Act.unlock)] =
      List.replicate p Tid.b ++ List.replicate q Tid.a) :=
  (peerMutex_serializes).2.2.2
    [(Tid.a, Act.remoteRead), (Tid.b, Act.lock), (Tid.b, Act.remoteMutate),
      (Tid.b, Act.unlock)]
    [Act.remoteRead] [Act.lock, Act.remoteMutate, Act.unlock]
    (.consA _ _ _ _ (.consB _ _ _ _ (.consB _ _ _ _ (.consB _ _ _ _ .nil))))
    (.otherStep _ _ _ _ (by decide) (by decide)
      (.lockStep _ _ (.otherStep _ _ _ _ (by decide) (by decide)
        (.unlockStep _ _ (.nil _)))))
    (createTrace_bracketed (.ok none) (fun _ => .ok) 1 1 1)
    (deleteTrace_bracketed true true 0)
